import Mathlib

/-!
Shallow embedding of `VariadicTable.h`, a variadic pretty-printing table.

A `VariadicTable<Ts...>` holds `_headers`, `_num_columns`, a static fallback
column size, the accumulated rows `_data`, and the derived `_column_sizes`.
Rendering goes through `size_columns` (compute the width of every column),
then `print` emits a dashed rule, the centered header line, a second rule,
one line per row (each cell set with `setw` and a justification chosen from
the column's declared type), and a closing rule.

The embedding models a cell value by the string that `operator<<` produces
for it together with the result of its `size()` member when the type has
one (`sizeOfData` falls back to `_static_column_size` otherwise), and a
column's declared type by whether `std::is_arithmetic` holds for it, which
is all `justify` inspects.
-/

namespace VariadicTable

/-- One cell value: `repr` is what streaming the value prints, `size?` is
the result of the `size()` member when the value's type has one (`none`
for types without `size()`, e.g. arithmetic types). -/
structure Cell where
  repr : String
  size? : Option Nat
deriving DecidableEq, Repr

instance : Inhabited Cell := ⟨⟨"", none⟩⟩

/-- `sizeOfData`: if the datatype has a `size()` member, call it;
otherwise use the statically set size `_static_column_size`. -/
def sizeOfData (static_column_size : Nat) (c : Cell) : Nat :=
  match c.size? with
  | some n => n
  | none => static_column_size

/-- `size_each`: the printed size of each element of one row. -/
def size_each (static_column_size : Nat) (row : List Cell) : List Nat :=
  row.map (sizeOfData static_column_size)

/-- `size_columns`: start each column at its header's length, then take the
max with every row's entry sizes. -/
def size_columns (headers : List String) (static_column_size : Nat)
    (data : List (List Cell)) : List Nat :=
  data.foldl (fun acc row => List.zipWith max acc (size_each static_column_size row))
    (headers.map String.length)

/-- A run of `n` spaces, `std::string(n, ' ')`. -/
def spaces (n : Nat) : String := String.mk (List.replicate n ' ')

/-- A dashed horizontal rule, `std::string(n, '-')`. -/
def rule (n : Nat) : String := String.mk (List.replicate n '-')

/-- The two manipulators `justify` can return. -/
inductive Justification where
  | right
  | left
deriving DecidableEq, Repr

/-- `justify<T>`: `std::right` when the column's declared type is
arithmetic, `std::left` otherwise (overload resolution on the declared
type, never on the run-time value). -/
def justify (isArithmetic : Bool) : Justification :=
  if isArithmetic then Justification.right else Justification.left

/-- `stream << std::setw(w) << j << s`: pad `s` with spaces to a minimum
field width `w`, on the side the justification dictates; a string longer
than `w` is not truncated. -/
def setw (w : Nat) (j : Justification) (s : String) : String :=
  match j with
  | Justification.right => spaces (w - s.length) ++ s
  | Justification.left => s ++ spaces (w - s.length)

/-- One cell of a data line: the value set to the column width with the
column's justification, followed by the `"|"` separator. -/
def print_one (w : Nat) (isArithmetic : Bool) (c : Cell) : String :=
  setw w (justify isArithmetic) c.repr ++ "|"

/-- `print_each`: every cell of one row, in column order. -/
def print_each (widths : List Nat) (arith : List Bool) (row : List Cell) : String :=
  String.join (List.zipWith3 print_one widths arith row)

/-- One full data line: the leading `"|"`, then every cell. -/
def dataLine (widths : List Nat) (arith : List Bool) (row : List Cell) : String :=
  "|" ++ print_each widths arith row

/-- One header cell: `setw(w) << std::left` applied to
`std::string(half, ' ') + header` where `half = w/2 - header.size()/2`,
followed by the `"|"` separator. Here the subtraction is the exact one;
`halfWrap` below is the machine-level computation, shown to agree on every
width `size_columns` produces. -/
def headerCell (w : Nat) (h : String) : String :=
  setw w Justification.left (spaces (w / 2 - h.length / 2) ++ h) ++ "|"

/-- The header line: the leading `"|"`, then every centered header. -/
def headerLine (widths : List Nat) (headers : List String) : String :=
  "|" ++ String.join (List.zipWith headerCell widths headers)

/-- The machine-level `half` of `print`: `half = _column_sizes[i] / 2`
(an `unsigned int`) followed by `half -= _headers[i].size() / 2`, where the
compound subtraction is carried out in 64-bit `size_t` arithmetic and the
result is truncated back to the 32-bit `unsigned int`. -/
def halfWrap (w hlen : Nat) : Nat :=
  ((w / 2 + (2 ^ 64 - hlen / 2 % 2 ^ 64)) % 2 ^ 64) % 2 ^ 32

/-- The table state: the declared column types (reduced to their
`std::is_arithmetic` verdict, the only thing the rendering inspects),
`_headers`, `_static_column_size`, `_data` and `_column_sizes`. -/
structure VTable where
  colArith : List Bool
  headers : List String
  static_column_size : Nat
  data : List (List Cell)
  column_sizes : List Nat
deriving DecidableEq, Repr

/-- `_num_columns = std::tuple_size<DataTuple>::value`: the number of
declared column types. -/
def VTable.num_columns (t : VTable) : Nat := t.colArith.length

/-- The constructor: abort (`none`) when the number of headers differs
from the statically declared column count, otherwise store the headers and
the static column size. -/
def mkVariadicTable (colArith : List Bool) (headers : List String)
    (static_column_size : Nat) : Option VTable :=
  if headers.length = colArith.length then
    some { colArith := colArith, headers := headers,
           static_column_size := static_column_size, data := [], column_sizes := [] }
  else
    none

/-- `addRow`: `_data.push_back(data)`. -/
def addRow (t : VTable) (row : List Cell) : VTable :=
  { t with data := t.data ++ [row] }

/-- `total_width = _num_columns + 1` separators plus the column sizes. -/
def totalWidth (num_columns : Nat) (widths : List Nat) : Nat :=
  (num_columns + 1) + widths.sum

/-- The lines `print` emits, in order, each of which the stream receives
followed by one `"\n"`. -/
def printLines (t : VTable) : List String :=
  let ws := size_columns t.headers t.static_column_size t.data
  let tw := totalWidth t.num_columns ws
  [rule tw, headerLine ws t.headers, rule tw]
    ++ t.data.map (dataLine ws t.colArith)
    ++ [rule tw]

/-- The byte stream `print` writes: every token in emission order. -/
def printString (t : VTable) : String :=
  let ws := size_columns t.headers t.static_column_size t.data
  let tw := totalWidth t.num_columns ws
  rule tw ++ "\n"
    ++ headerLine ws t.headers ++ "\n"
    ++ rule tw ++ "\n"
    ++ String.join (t.data.map (fun row => dataLine ws t.colArith row ++ "\n"))
    ++ rule tw ++ "\n"

/-- The table state after `print` returns: `size_columns` stored the fresh
widths into `_column_sizes`; nothing else changed. -/
def printRun (t : VTable) : VTable :=
  { t with column_sizes := size_columns t.headers t.static_column_size t.data }

end VariadicTable

/-! ### Basic length lemmas -/

namespace VariadicTable

lemma spaces_length (n : Nat) : (spaces n).length = n := by
  simp [spaces, String.length]

lemma rule_length (n : Nat) : (rule n).length = n := by
  simp [rule, String.length]

lemma foldl_append_eq (l : List String) :
    ∀ a : String, l.foldl (fun r s => r ++ s) a = a ++ l.foldl (fun r s => r ++ s) "" := by
  induction l with
  | nil => intro a; simp
  | cons s l ih =>
    intro a
    simp only [List.foldl_cons]
    rw [ih (a ++ s), ih ("" ++ s)]
    simp [String.append_assoc]

lemma join_cons (s : String) (l : List String) :
    String.join (s :: l) = s ++ String.join l := by
  simp only [String.join, List.foldl_cons]
  rw [foldl_append_eq]
  simp

lemma join_nil : String.join ([] : List String) = "" := rfl

lemma setw_length (w : Nat) (j : Justification) (s : String) :
    (setw w j s).length = max w s.length := by
  cases j <;> simp [setw, String.length_append, spaces_length] <;> omega

lemma print_one_length (w : Nat) (a : Bool) (c : Cell) (h : c.repr.length ≤ w) :
    (print_one w a c).length = w + 1 := by
  rw [print_one, String.length_append, setw_length, Nat.max_eq_left h]
  rfl

lemma headerCell_length (w : Nat) (h : String) (hle : h.length ≤ w) :
    (headerCell w h).length = w + 1 := by
  have h1 : (spaces (w / 2 - h.length / 2) ++ h).length
      = (w / 2 - h.length / 2) + h.length := by
    rw [String.length_append, spaces_length]
  rw [headerCell, String.length_append, setw_length, h1,
      Nat.max_eq_left (by omega)]
  rfl

lemma sum_map_add_one (ws : List Nat) :
    (ws.map (fun w => w + 1)).sum = ws.sum + ws.length := by
  induction ws with
  | nil => simp
  | cons w ws ih => simp [ih]; omega

end VariadicTable

/-! ### Pointwise description of `size_columns` -/

namespace VariadicTable

lemma zipWith_max_getD (acc sizes : List Nat) (i : Nat)
    (h1 : i < acc.length) (h2 : i < sizes.length) :
    (List.zipWith max acc sizes).getD i 0 = max (acc.getD i 0) (sizes.getD i 0) := by
  rw [List.getD_eq_getElem _ _ (by rw [List.length_zipWith]; omega),
      List.getD_eq_getElem _ _ h1, List.getD_eq_getElem _ _ h2]
  simp

lemma size_each_length (st : Nat) (row : List Cell) :
    (size_each st row).length = row.length := by
  simp [size_each]

lemma size_each_getD (st : Nat) (row : List Cell) (i : Nat) (h : i < row.length) :
    (size_each st row).getD i 0 = sizeOfData st (row.getD i default) := by
  rw [List.getD_eq_getElem _ _ (by rw [size_each_length]; exact h),
      List.getD_eq_getElem _ _ h]
  simp [size_each]

lemma size_columns_foldl_length (st : Nat) (data : List (List Cell)) :
    ∀ acc : List Nat, (∀ row ∈ data, acc.length ≤ row.length) →
    (data.foldl (fun a row => List.zipWith max a (size_each st row)) acc).length
      = acc.length := by
  induction data with
  | nil => intro acc _; simp
  | cons r rs ih =>
    intro acc hsh
    have hlr : acc.length ≤ r.length := hsh r (by simp)
    have hlen : (List.zipWith max acc (size_each st r)).length = acc.length := by
      rw [List.length_zipWith, size_each_length]; omega
    simp only [List.foldl_cons]
    rw [ih _ (fun row hrow => by rw [hlen]; exact hsh row (by simp [hrow])), hlen]

lemma size_columns_length (headers : List String) (st : Nat) (data : List (List Cell))
    (hshape : ∀ row ∈ data, headers.length ≤ row.length) :
    (size_columns headers st data).length = headers.length := by
  rw [size_columns, size_columns_foldl_length st data _ (by simpa using hshape)]
  simp

lemma size_columns_foldl_getD (st : Nat) (data : List (List Cell)) (i : Nat) :
    ∀ acc : List Nat, (∀ row ∈ data, acc.length ≤ row.length) → i < acc.length →
    (data.foldl (fun a row => List.zipWith max a (size_each st row)) acc).getD i 0
      = data.foldl (fun m row => max m (sizeOfData st (row.getD i default)))
          (acc.getD i 0) := by
  induction data with
  | nil => intro acc _ _; simp
  | cons r rs ih =>
    intro acc hsh hi
    have hlr : acc.length ≤ r.length := hsh r (by simp)
    have hlen : (List.zipWith max acc (size_each st r)).length = acc.length := by
      rw [List.length_zipWith, size_each_length]; omega
    simp only [List.foldl_cons]
    rw [ih _ (fun row hrow => by rw [hlen]; exact hsh row (by simp [hrow]))
        (by omega),
      zipWith_max_getD _ _ _ hi (by rw [size_each_length]; omega),
      size_each_getD st r i (by omega)]

lemma size_columns_getD (headers : List String) (st : Nat) (data : List (List Cell))
    (hshape : ∀ row ∈ data, headers.length ≤ row.length) (i : Nat)
    (hi : i < headers.length) :
    (size_columns headers st data).getD i 0
      = data.foldl (fun m row => max m (sizeOfData st (row.getD i default)))
          (headers.getD i "").length := by
  rw [size_columns,
    size_columns_foldl_getD st data i _ (by simpa using hshape) (by simpa using hi)]
  congr 1
  rw [List.getD_eq_getElem _ _ (by simpa using hi), List.getD_eq_getElem _ _ hi]
  simp

lemma le_foldl_max (data : List (List Cell)) (f : List Cell → Nat) :
    ∀ a : Nat, a ≤ data.foldl (fun m row => max m (f row)) a := by
  induction data with
  | nil => intro a; simp
  | cons r rs ih =>
    intro a
    exact le_trans (le_max_left a (f r)) (ih _)

lemma foldl_max_lt (data : List (List Cell)) (f : List Cell → Nat) (B : Nat) :
    ∀ a : Nat, a < B → (∀ row ∈ data, f row < B) →
    data.foldl (fun m row => max m (f row)) a < B := by
  induction data with
  | nil => intro a ha _; simpa using ha
  | cons r rs ih =>
    intro a ha hf
    simp only [List.foldl_cons]
    have hfr : f r < B := hf r (by simp)
    exact ih _ (by omega) (fun row hrow => hf row (by simp [hrow]))

lemma header_le_size_columns (headers : List String) (st : Nat)
    (data : List (List Cell))
    (hshape : ∀ row ∈ data, headers.length ≤ row.length) (i : Nat)
    (hi : i < headers.length) :
    (headers.getD i "").length ≤ (size_columns headers st data).getD i 0 := by
  rw [size_columns_getD headers st data hshape i hi]
  exact le_foldl_max data _ _

end VariadicTable

/-! ### Length of each emitted line -/

namespace VariadicTable

lemma zipWith3_cons {α β γ δ : Type} (f : α → β → γ → δ) (x : α) (y : β) (z : γ)
    (xs : List α) (ys : List β) (zs : List γ) :
    List.zipWith3 f (x :: xs) (y :: ys) (z :: zs)
      = f x y z :: List.zipWith3 f xs ys zs := rfl

lemma zipWith3_nil {α β γ δ : Type} (f : α → β → γ → δ) (ys : List β) (zs : List γ) :
    List.zipWith3 f ([] : List α) ys zs = [] := rfl

lemma headerCells_length (ws : List Nat) (hs : List String)
    (hf : List.Forall₂ (fun (w : Nat) (s : String) => s.length ≤ w) ws hs) :
    (String.join (List.zipWith headerCell ws hs)).length
      = (ws.map (fun w => w + 1)).sum := by
  induction hf with
  | nil => simp [join_nil]
  | cons hwh hrest ih =>
    simp only [List.zipWith_cons_cons, List.map_cons, List.sum_cons]
    rw [join_cons, String.length_append, headerCell_length _ _ hwh, ih]

lemma headerLine_length (ws : List Nat) (hs : List String)
    (hf : List.Forall₂ (fun (w : Nat) (s : String) => s.length ≤ w) ws hs) :
    (headerLine ws hs).length = 1 + (ws.map (fun w => w + 1)).sum := by
  rw [headerLine, String.length_append, headerCells_length ws hs hf]
  have h1 : ("|" : String).length = 1 := rfl
  rw [h1]

lemma print_each_length (ws : List Nat) (row : List Cell)
    (hfit : List.Forall₂ (fun (w : Nat) (c : Cell) => c.repr.length ≤ w) ws row) :
    ∀ arith : List Bool, ws.length ≤ arith.length →
      (print_each ws arith row).length = (ws.map (fun w => w + 1)).sum := by
  induction hfit with
  | nil => intro arith _; simp [print_each, zipWith3_nil, join_nil]
  | cons hwc hrest ih =>
    intro arith hlen
    cases arith with
    | nil => simp at hlen
    | cons a arith' =>
      simp only [List.length_cons] at hlen
      have := ih arith' (by omega)
      simp only [print_each] at this ⊢
      rw [zipWith3_cons, join_cons, String.length_append,
        print_one_length _ _ _ hwc, this]
      simp only [List.map_cons, List.sum_cons]

lemma dataLine_length (ws : List Nat) (arith : List Bool) (row : List Cell)
    (hfit : List.Forall₂ (fun (w : Nat) (c : Cell) => c.repr.length ≤ w) ws row)
    (hlen : ws.length ≤ arith.length) :
    (dataLine ws arith row).length = 1 + (ws.map (fun w => w + 1)).sum := by
  rw [dataLine, String.length_append, print_each_length ws row hfit arith hlen]
  have h1 : ("|" : String).length = 1 := rfl
  rw [h1]

lemma size_columns_forall₂ (headers : List String) (st : Nat)
    (data : List (List Cell))
    (hshape : ∀ row ∈ data, headers.length ≤ row.length) :
    List.Forall₂ (fun (w : Nat) (s : String) => s.length ≤ w)
      (size_columns headers st data) headers := by
  apply List.forall₂_of_length_eq_of_get
  · exact size_columns_length headers st data hshape
  · intro i h₁ h₂
    have := header_le_size_columns headers st data hshape i h₂
    rw [List.getD_eq_getElem _ _ h₂, List.getD_eq_getElem _ _ h₁] at this
    simpa using this

end VariadicTable

/-! ### Concrete tables used to instantiate the theorems -/

namespace VariadicTable

/-- The table of the documentation example: headers `Name`, `Weight`,
`Age`, `Brother` over `std::string, double, int, std::string`, default
static column size `0`, one row `("Fred", 193.4, 35, "Sam")`. -/
def exTable : VTable :=
  { colArith := [false, true, true, false]
    headers := ["Name", "Weight", "Age", "Brother"]
    static_column_size := 0
    data := [[⟨"Fred", some 4⟩, ⟨"193.4", none⟩, ⟨"35", none⟩, ⟨"Sam", some 3⟩]]
    column_sizes := [] }

/-- A `VariadicTable<double>` with header `"W"` and one row `193.4`: the
value prints five characters but its column is sized from the fallback
width `0`, so the data line is wider than the rules. -/
def cexFit : VTable :=
  { colArith := [true]
    headers := ["W"]
    static_column_size := 0
    data := [[⟨"193.4", none⟩]]
    column_sizes := [] }

/-- A `VariadicTable<std::string>` with header `"A"` and one row `"abcd"`:
the column width is 4, the free header padding 3, and the header is
rendered `"  A "` with the extra space on the left. -/
def cexBias : VTable :=
  { colArith := [false]
    headers := ["A"]
    static_column_size := 0
    data := [[⟨"abcd", some 4⟩]]
    column_sizes := [] }

/-- A table with two columns and no rows. -/
def emptyTable : VTable :=
  { colArith := [false, true]
    headers := ["Name", "Age"]
    static_column_size := 0
    data := []
    column_sizes := [] }

end VariadicTable

/-! ### The claims -/

namespace VariadicTable

/-- C1: for every table whose rows have one value per column, the width
`size_columns` computes for column `i` is the maximum of the header
label's length and, over all added rows, each value's display length,
where the display length is `size()` when the type has one and the static
fallback width otherwise. -/
theorem c1_column_width (t : VTable)
    (hshape : ∀ row ∈ t.data, row.length = t.headers.length)
    (i : Nat) (hi : i < t.headers.length) :
    (size_columns t.headers t.static_column_size t.data).getD i 0
      = t.data.foldl
          (fun m row => max m (sizeOfData t.static_column_size (row.getD i default)))
          (t.headers.getD i "").length :=
  size_columns_getD t.headers t.static_column_size t.data
    (fun row hrow => le_of_eq (hshape row hrow).symm) i hi

/-- C1, instantiated: in the documentation example the `Weight` column is
6 wide, the maximum of the header length 6 and the fallback width 0. -/
theorem c1_column_width_witness :
    (size_columns exTable.headers exTable.static_column_size exTable.data).getD 1 0
      = exTable.data.foldl
          (fun m row => max m (sizeOfData exTable.static_column_size (row.getD 1 default)))
          (exTable.headers.getD 1 "").length
    ∧ (size_columns exTable.headers exTable.static_column_size exTable.data).getD 1 0 = 6 :=
  ⟨c1_column_width exTable (by decide) 1 (by decide), by decide⟩

/-- C3: construction yields `none` (the process aborts) exactly when the
number of headers differs from the declared column count, and otherwise
stores the headers and the fallback width unchanged, with no rows. -/
theorem c3_constructor (colArith : List Bool) (headers : List String) (sz : Nat) :
    (mkVariadicTable colArith headers sz = none ↔ headers.length ≠ colArith.length)
    ∧ ∀ t, mkVariadicTable colArith headers sz = some t →
        t.colArith = colArith ∧ t.headers = headers ∧ t.static_column_size = sz
          ∧ t.data = [] ∧ t.column_sizes = [] := by
  constructor
  · by_cases h : headers.length = colArith.length <;> simp [mkVariadicTable, h]
  · intro t ht
    by_cases h : headers.length = colArith.length
    · simp only [mkVariadicTable, if_pos h, Option.some.injEq] at ht
      subst ht
      exact ⟨rfl, rfl, rfl, rfl, rfl⟩
    · simp [mkVariadicTable, if_neg h] at ht

/-- C3, instantiated: two headers on one declared column abort, two
headers on two declared columns construct and store everything given. -/
theorem c3_constructor_witness :
    (mkVariadicTable [true] ["A", "B"] 7 = none ↔ (["A", "B"] : List String).length ≠ ([true] : List Bool).length)
    ∧ ({ colArith := [true, false], headers := ["A", "B"], static_column_size := 7,
         data := [], column_sizes := [] } : VTable).headers = ["A", "B"] :=
  ⟨(c3_constructor [true] ["A", "B"] 7).1,
   ((c3_constructor [true, false] ["A", "B"] 7).2 _ (by decide)).2.1⟩

/-- C4: a rendered cell is right-justified exactly when the column's
declared type is arithmetic and left-justified otherwise; the branch in
the rendering is on the column's static flag alone, never on the cell. -/
theorem c4_justification (widths : List Nat) (arith : List Bool) (row : List Cell) :
    print_each widths arith row
      = String.join (List.zipWith3
          (fun (w : Nat) (a : Bool) (c : Cell) =>
            (if a then spaces (w - c.repr.length) ++ c.repr
             else c.repr ++ spaces (w - c.repr.length)) ++ "|")
          widths arith row)
    ∧ justify true = Justification.right ∧ justify false = Justification.left := by
  refine ⟨?_, rfl, rfl⟩
  have hpo : print_one = fun (w : Nat) (a : Bool) (c : Cell) =>
      (if a then spaces (w - c.repr.length) ++ c.repr
       else c.repr ++ spaces (w - c.repr.length)) ++ "|" := by
    funext w a c
    cases a <;> simp [print_one, setw, justify]
  rw [print_each, hpo]

/-- C6: `print` recomputes the column widths from scratch, so a second
`print` on the unmodified table emits byte-identical output and leaves the
same state. -/
theorem c6_print_idempotent (t : VTable) :
    printLines (printRun t) = printLines t
    ∧ printString (printRun t) = printString t
    ∧ printRun (printRun t) = printRun t :=
  ⟨rfl, rfl, rfl⟩

/-- C9: `addRow` changes only the row sequence, and only by appending;
`print` changes only the derived column-width array. -/
theorem c9_frame (t : VTable) (r : List Cell) :
    (addRow t r).headers = t.headers
    ∧ (addRow t r).static_column_size = t.static_column_size
    ∧ (addRow t r).colArith = t.colArith
    ∧ (addRow t r).column_sizes = t.column_sizes
    ∧ (addRow t r).data = t.data ++ [r]
    ∧ (printRun t).headers = t.headers
    ∧ (printRun t).static_column_size = t.static_column_size
    ∧ (printRun t).colArith = t.colArith
    ∧ (printRun t).data = t.data
    ∧ (printRun t).column_sizes = size_columns t.headers t.static_column_size t.data :=
  ⟨rfl, rfl, rfl, rfl, rfl, rfl, rfl, rfl, rfl, rfl⟩

end VariadicTable

namespace VariadicTable

lemma join_append (l₁ l₂ : List String) :
    String.join (l₁ ++ l₂) = String.join l₁ ++ String.join l₂ := by
  simp only [String.join, List.foldl_append]
  rw [foldl_append_eq l₂]

/-- C2 fails as stated: in `cexFit` the data line is 7 characters wide
while every rule is 3 wide, because the double's printed text `193.4` is
longer than its column (sized from the fallback width 0). -/
theorem c2_equal_width_counterexample :
    ¬ ∀ l ∈ printLines cexFit,
        l.length = 1 + ((size_columns cexFit.headers cexFit.static_column_size
            cexFit.data).map (fun w => w + 1)).sum := by
  decide

/-- C2, amended: every emitted line has width `1 + Σ (wᵢ + 1)` provided
each cell's printed representation fits within its computed column width
(the widths only account for `size()` or the fallback, not for the printed
text of sizeless values). -/
theorem c2_line_width (t : VTable)
    (hcols : t.headers.length = t.num_columns)
    (hshape : ∀ row ∈ t.data, row.length = t.headers.length)
    (hfit : ∀ row ∈ t.data, ∀ i, i < row.length →
        (row.getD i default).repr.length
          ≤ (size_columns t.headers t.static_column_size t.data).getD i 0) :
    ∀ l ∈ printLines t,
      l.length
        = 1 + ((size_columns t.headers t.static_column_size t.data).map
            (fun w => w + 1)).sum := by
  have hshape' : ∀ row ∈ t.data, t.headers.length ≤ row.length :=
    fun row hrow => le_of_eq (hshape row hrow).symm
  have hwlen : (size_columns t.headers t.static_column_size t.data).length
      = t.headers.length :=
    size_columns_length t.headers t.static_column_size t.data hshape'
  have hrule : ∀ n : Nat,
      (rule (totalWidth t.num_columns
          (size_columns t.headers t.static_column_size t.data))).length
        = 1 + ((size_columns t.headers t.static_column_size t.data).map
            (fun w => w + 1)).sum := by
    intro _
    rw [rule_length, totalWidth, sum_map_add_one, hwlen, hcols]
    omega
  intro l hl
  have hl' : l = rule (totalWidth t.num_columns
        (size_columns t.headers t.static_column_size t.data))
      ∨ l = headerLine (size_columns t.headers t.static_column_size t.data) t.headers
      ∨ ∃ row ∈ t.data,
          dataLine (size_columns t.headers t.static_column_size t.data) t.colArith row
            = l := by
    simp only [printLines, List.mem_append, List.mem_cons, List.mem_singleton,
      List.mem_map, List.not_mem_nil, or_false] at hl
    tauto
  rcases hl' with h | h | ⟨row, hrow, h⟩
  · rw [h]; exact hrule 0
  · rw [h]
    exact headerLine_length _ _
      (size_columns_forall₂ t.headers t.static_column_size t.data hshape')
  · rw [← h]
    apply dataLine_length
    · apply List.forall₂_of_length_eq_of_get
      · rw [hwlen]; exact (hshape row hrow).symm
      · intro i h₁ h₂
        have := hfit row hrow i h₂
        rw [List.getD_eq_getElem _ _ h₂, List.getD_eq_getElem _ _ h₁] at this
        simpa using this
    · rw [hwlen, hcols]; exact le_of_eq rfl

/-- C2, amended, instantiated: in the documentation example every cell
fits and all five lines are 25 characters wide. -/
theorem c2_line_width_witness :
    (∀ l ∈ printLines exTable,
      l.length
        = 1 + ((size_columns exTable.headers exTable.static_column_size exTable.data).map
            (fun w => w + 1)).sum)
    ∧ (printLines exTable).map String.length = [25, 25, 25, 25, 25] :=
  ⟨c2_line_width exTable (by decide) (by decide) (by decide), by decide⟩

end VariadicTable

namespace VariadicTable

lemma headerCell_decomp (w : Nat) (h : String) :
    headerCell w h
      = spaces (w / 2 - h.length / 2)
        ++ (h ++ (spaces (w - ((w / 2 - h.length / 2) + h.length)) ++ "|")) := by
  simp only [headerCell, setw]
  rw [String.length_append, spaces_length]
  simp [String.append_assoc]

/-- C5 fails as stated: in `cexBias` the column is 4 wide and the header
`"A"` one character, the free padding 3 is odd, yet the label is rendered
`"  A "` with 2 leading and only 1 trailing space — the extra space falls
on the left, not on the right. -/
theorem c5_header_bias_counterexample :
    size_columns cexBias.headers cexBias.static_column_size cexBias.data = [4]
    ∧ headerLine [4] cexBias.headers = "|  A |"
    ∧ (4 - ("A" : String).length) % 2 = 1
    ∧ ¬ (4 / 2 - ("A" : String).length / 2
          < 4 - ((4 / 2 - ("A" : String).length / 2) + ("A" : String).length)) :=
  ⟨by decide, by decide, by decide, by decide⟩

/-- C5, amended: each header label is preceded by exactly
`w/2 - label_length/2` spaces (floor division on both halves) and followed
by trailing fill up to the column width; when the free padding is odd the
extra space falls on the right of the label if the column width is odd,
and on the left if the column width is even. -/
theorem c5_header_centering (w : Nat) (h : String) (hle : h.length ≤ w) :
    headerCell w h
      = spaces (w / 2 - h.length / 2)
        ++ (h ++ (spaces (w - ((w / 2 - h.length / 2) + h.length)) ++ "|"))
    ∧ (headerCell w h).length = w + 1
    ∧ ((w - h.length) % 2 = 1 →
        (w % 2 = 1 →
          w - ((w / 2 - h.length / 2) + h.length) = (w / 2 - h.length / 2) + 1)
        ∧ (w % 2 = 0 →
          w / 2 - h.length / 2 = (w - ((w / 2 - h.length / 2) + h.length)) + 1)) := by
  refine ⟨headerCell_decomp w h, headerCell_length w h hle, ?_⟩
  intro hodd
  constructor <;> intro hp <;> omega

/-- C5, amended, instantiated at width 5 and label `"ab"`: one leading
space, two trailing (the extra of the odd free padding on the right, the
width being odd). -/
theorem c5_header_centering_witness :
    (headerCell 5 "ab"
      = spaces (5 / 2 - ("ab" : String).length / 2)
        ++ ("ab" ++ (spaces (5 - ((5 / 2 - ("ab" : String).length / 2)
              + ("ab" : String).length)) ++ "|"))
    ∧ (headerCell 5 "ab").length = 5 + 1
    ∧ ((5 - ("ab" : String).length) % 2 = 1 →
        (5 % 2 = 1 →
          5 - ((5 / 2 - ("ab" : String).length / 2) + ("ab" : String).length)
            = (5 / 2 - ("ab" : String).length / 2) + 1)
        ∧ (5 % 2 = 0 →
          5 / 2 - ("ab" : String).length / 2
            = (5 - ((5 / 2 - ("ab" : String).length / 2) + ("ab" : String).length)) + 1)))
    ∧ headerCell 5 "ab" = " ab  |" :=
  ⟨c5_header_centering 5 "ab" (by decide), by decide⟩

/-- C7: `addRow` appends at the end of the stored row sequence, and the
`i`-th data line of `print` (line `3 + i` of the output) is the rendering
of the `i`-th stored row. -/
theorem c7_row_order (t : VTable) (r : List Cell) :
    (addRow t r).data = t.data ++ [r]
    ∧ ∀ i, i < t.data.length →
        (printLines t)[3 + i]?
          = (t.data[i]?).map
              (dataLine (size_columns t.headers t.static_column_size t.data) t.colArith) := by
  refine ⟨rfl, ?_⟩
  intro i hi
  have h3 : printLines t
      = rule (totalWidth t.num_columns
            (size_columns t.headers t.static_column_size t.data))
        :: headerLine (size_columns t.headers t.static_column_size t.data) t.headers
        :: rule (totalWidth t.num_columns
            (size_columns t.headers t.static_column_size t.data))
        :: (t.data.map
              (dataLine (size_columns t.headers t.static_column_size t.data) t.colArith)
            ++ [rule (totalWidth t.num_columns
                  (size_columns t.headers t.static_column_size t.data))]) := by
    simp [printLines]
  rw [h3, show 3 + i = i + 1 + 1 + 1 by omega]
  simp only [List.getElem?_cons_succ]
  rw [List.getElem?_append_left (by simpa using hi), List.getElem?_map]

/-- C7, instantiated: in the documentation example the first data line is
the rendering of the first (and only) added row. -/
theorem c7_row_order_witness :
    (addRow exTable []).data = exTable.data ++ [[]]
    ∧ (printLines exTable)[3 + 0]?
        = (exTable.data[0]?).map
            (dataLine (size_columns exTable.headers exTable.static_column_size exTable.data)
              exTable.colArith)
    ∧ (printLines exTable)[3]? = some "|Fred| 193.4| 35|Sam    |" :=
  ⟨(c7_row_order exTable []).1, (c7_row_order exTable []).2 0 (by decide), by decide⟩

/-- C8: `print` emits, in order, a rule, the header line, an identical
rule, one line per row, and a final identical rule, each line followed by
a newline in the byte stream; an empty table still gets the three rules
and the header line, with widths that are exactly the header lengths. -/
theorem c8_output_structure (t : VTable) :
    printLines t
      = [rule (totalWidth t.num_columns
            (size_columns t.headers t.static_column_size t.data)),
         headerLine (size_columns t.headers t.static_column_size t.data) t.headers,
         rule (totalWidth t.num_columns
            (size_columns t.headers t.static_column_size t.data))]
        ++ t.data.map
            (dataLine (size_columns t.headers t.static_column_size t.data) t.colArith)
        ++ [rule (totalWidth t.num_columns
            (size_columns t.headers t.static_column_size t.data))]
    ∧ (t.data.map
          (dataLine (size_columns t.headers t.static_column_size t.data) t.colArith)).length
        = t.data.length
    ∧ printString t = String.join ((printLines t).map (fun l => l ++ "\n"))
    ∧ (t.data = [] →
        printLines t
          = [rule (totalWidth t.num_columns (t.headers.map String.length)),
             headerLine (t.headers.map String.length) t.headers,
             rule (totalWidth t.num_columns (t.headers.map String.length)),
             rule (totalWidth t.num_columns (t.headers.map String.length))]
          ∧ size_columns t.headers t.static_column_size t.data
              = t.headers.map String.length) := by
  refine ⟨rfl, List.length_map _ _, ?_, ?_⟩
  · simp only [printString, printLines, List.map_append, List.map_cons, List.map_nil,
      join_append, join_cons, join_nil, List.map_map, Function.comp_def]
    simp [String.append_assoc]
  · intro hdata
    constructor
    · simp [printLines, hdata, size_columns]
    · rw [hdata]
      rfl

/-- C8, instantiated on the empty two-column table. -/
theorem c8_output_structure_witness :
    printLines emptyTable
      = [rule (totalWidth emptyTable.num_columns (emptyTable.headers.map String.length)),
         headerLine (emptyTable.headers.map String.length) emptyTable.headers,
         rule (totalWidth emptyTable.num_columns (emptyTable.headers.map String.length)),
         rule (totalWidth emptyTable.num_columns (emptyTable.headers.map String.length))]
    ∧ size_columns emptyTable.headers emptyTable.static_column_size emptyTable.data
        = emptyTable.headers.map String.length :=
  (c8_output_structure emptyTable).2.2.2 rfl

/-- C10: on every table whose header lengths and cell display sizes fit in
an `unsigned int`, the computed width is at least the header length, so
`floor(width/2) ≥ floor(header_length/2)` and the machine subtraction
`half = width/2 - header_length/2` never wraps: it equals the exact
difference. -/
theorem c10_no_unsigned_wrap (t : VTable)
    (hshape : ∀ row ∈ t.data, row.length = t.headers.length)
    (hh : ∀ h ∈ t.headers, h.length < 2 ^ 32)
    (hc : ∀ row ∈ t.data, ∀ c ∈ row, sizeOfData t.static_column_size c < 2 ^ 32)
    (i : Nat) (hi : i < t.headers.length) :
    (t.headers.getD i "").length / 2
        ≤ (size_columns t.headers t.static_column_size t.data).getD i 0 / 2
    ∧ halfWrap ((size_columns t.headers t.static_column_size t.data).getD i 0)
          (t.headers.getD i "").length
        = (size_columns t.headers t.static_column_size t.data).getD i 0 / 2
          - (t.headers.getD i "").length / 2 := by
  have hshape' : ∀ row ∈ t.data, t.headers.length ≤ row.length :=
    fun row hrow => le_of_eq (hshape row hrow).symm
  have hle := header_le_size_columns t.headers t.static_column_size t.data hshape' i hi
  have hwlt : (size_columns t.headers t.static_column_size t.data).getD i 0 < 2 ^ 32 := by
    rw [size_columns_getD t.headers t.static_column_size t.data hshape' i hi]
    apply foldl_max_lt
    · rw [List.getD_eq_getElem _ _ hi]
      exact hh _ (List.getElem_mem hi)
    · intro row hrow
      have hlen : i < row.length := by
        have := hshape row hrow
        omega
      rw [List.getD_eq_getElem _ _ hlen]
      exact hc row hrow _ (List.getElem_mem hlen)
  refine ⟨Nat.div_le_div_right hle, ?_⟩
  have h64 : (2 : Nat) ^ 64 = 18446744073709551616 := by norm_num
  have h32 : (2 : Nat) ^ 32 = 4294967296 := by norm_num
  rw [halfWrap, h64, h32]
  rw [h32] at hwlt
  omega

/-- C10, instantiated: the `Name` column of the documentation example. -/
theorem c10_no_unsigned_wrap_witness :
    (exTable.headers.getD 0 "").length / 2
        ≤ (size_columns exTable.headers exTable.static_column_size exTable.data).getD 0 0 / 2
    ∧ halfWrap ((size_columns exTable.headers exTable.static_column_size exTable.data).getD 0 0)
          (exTable.headers.getD 0 "").length
        = (size_columns exTable.headers exTable.static_column_size exTable.data).getD 0 0 / 2
          - (exTable.headers.getD 0 "").length / 2 :=
  c10_no_unsigned_wrap exTable (by decide) (by decide) (by decide) 0 (by decide)

end VariadicTable
